import Mathlib

/-!
Verification of the Cross-Platform-Automation repository: a media pipeline
that ingests an Instagram Reel URL, downloads and processes the video,
stores it, generates an AI caption, and publishes to TikTok, tracking
per-step Job Records and aggregate Item status.

The frontend definitions below are translated from the files under
frontend/src.  The backend pipeline (orchestrator, job record store,
credential manager, step executors) is documented but its code is not among
the sampled sources, so those definitions are modelled from the spec, as
marked in their doc comments.
-/

namespace CrossPlatform

/-! Frontend API client (frontend/src/services/api.js, two revisions). -/

/-- HTTP method used by the frontend axios client. -/
inductive Method
  | get
  | post
  deriving DecidableEq, Repr

/-- A request as the frontend API client constructs it: method, resolved
base URL, path, and JSON body fields (name-value pairs). -/
structure Request where
  method : Method
  baseURL : String
  path : String
  body : List (String × String)
  deriving DecidableEq, Repr

/-- JavaScript logical-or applied to an optional environment string: an
unset or empty value is falsy, so the default applies. -/
def jsOrDefault (v : Option String) (dflt : String) : String :=
  match v with
  | none => dflt
  | some s => if s = "" then dflt else s

namespace OldApi

/-- Base URL of the earlier client revision (frontend/src/services/api.js):
import.meta.env.VITE_API_URL or the localhost default. -/
def baseURL (viteApiUrl : Option String) : String :=
  jsOrDefault viteApiUrl "http://localhost:8000"

/-- The createVideo call of the earlier client revision: POST /api/videos/
with a body holding the submitted instagram_url. -/
def createVideo (viteApiUrl : Option String) (instagram_url : String) : Request :=
  { method := Method.post, baseURL := baseURL viteApiUrl, path := "/api/videos/",
    body := [("instagram_url", instagram_url)] }

/-- The getVideos call of the earlier client revision: GET /api/videos/. -/
def getVideos (viteApiUrl : Option String) : Request :=
  { method := Method.get, baseURL := baseURL viteApiUrl, path := "/api/videos/", body := [] }

/-- The getStats call of the earlier client revision: GET /api/stats/summary. -/
def getStats (viteApiUrl : Option String) : Request :=
  { method := Method.get, baseURL := baseURL viteApiUrl, path := "/api/stats/summary", body := [] }

end OldApi

namespace NewApi

/-- Base URL of the later client revision (the unnamed api.js with the
TikTok endpoints): import.meta.env.VITE_API_URL or the localhost default. -/
def baseURL (viteApiUrl : Option String) : String :=
  jsOrDefault viteApiUrl "http://localhost:8000"

/-- The createVideo call of the later client revision: POST /api/videos/
with a body holding the submitted instagram_url. -/
def createVideo (viteApiUrl : Option String) (instagram_url : String) : Request :=
  { method := Method.post, baseURL := baseURL viteApiUrl, path := "/api/videos/",
    body := [("instagram_url", instagram_url)] }

/-- The getVideos call of the later client revision: GET /api/videos/. -/
def getVideos (viteApiUrl : Option String) : Request :=
  { method := Method.get, baseURL := baseURL viteApiUrl, path := "/api/videos/", body := [] }

/-- The getStats call of the later client revision: GET /api/stats/summary. -/
def getStats (viteApiUrl : Option String) : Request :=
  { method := Method.get, baseURL := baseURL viteApiUrl, path := "/api/stats/summary", body := [] }

end NewApi

/-! Dashboard stats cards (frontend/src/components/Stats.jsx). -/

/-- A stats summary object as the dashboard receives it from
GET /api/stats/summary: each count may be absent in the JSON. -/
structure StatsData where
  total_videos : Option Nat
  pending : Option Nat
  downloading : Option Nat
  processing : Option Nat
  uploading : Option Nat
  captioning : Option Nat
  publishing : Option Nat
  completed : Option Nat
  failed : Option Nat
  deriving DecidableEq, Repr

/-- JavaScript nullish coalescing with zero, as in stats.field ?? 0. -/
def orZero (v : Option Nat) : Nat := v.getD 0

/-- The five cards the Stats component computes (Stats.jsx): label paired
with the displayed value. -/
def statsCards (s : StatsData) : List (String × Nat) :=
  [("Total", orZero s.total_videos),
   ("Pending", orZero s.pending),
   ("Processing", orZero s.downloading + orZero s.processing + orZero s.uploading),
   ("Completed", orZero s.completed),
   ("Failed", orZero s.failed)]

/-- Modelled from the spec: the backend stats summary (section 6, aggregate
counts of Items by status, code not among the sampled sources): a stats
object whose total_videos is the sum of the per-status counts. -/
def exactStats (pe d pr u cap pub co f : Nat) : StatsData :=
  { total_videos := some (pe + d + pr + u + cap + pub + co + f),
    pending := some pe, downloading := some d, processing := some pr,
    uploading := some u, captioning := some cap, publishing := some pub,
    completed := some co, failed := some f }

/-- C9: the Processing card is exactly the sum of the downloading,
processing and uploading counts with absent fields read as zero; no card
reads the captioning or publishing counts, so changing them changes no
card; and when total_videos is the sum of all per-status counts, the
non-Total cards sum to the total minus the captioning and publishing
counts, so those Items are counted only by the Total card. -/
theorem stats_processing_card (s : StatsData) (c p : Nat)
    (pe d pr u cap pub co f : Nat) :
    (statsCards s).get? 2 =
      some ("Processing", orZero s.downloading + orZero s.processing + orZero s.uploading) ∧
    statsCards { s with captioning := some c, publishing := some p } = statsCards s ∧
    (((statsCards (exactStats pe d pr u cap pub co f)).drop 1).map Prod.snd).sum + cap + pub
      = orZero (exactStats pe d pr u cap pub co f).total_videos := by
  refine ⟨rfl, rfl, ?_⟩
  simp [statsCards, exactStats, orZero]
  ring

/-- C10: for the three operations present in both revisions of the frontend
API client, the requests constructed are identical: same method, same
resolved base URL for the same VITE_API_URL setting, same path, and the
same body. -/
theorem api_client_revisions_equal (viteApiUrl : Option String) (url : String) :
    NewApi.createVideo viteApiUrl url = OldApi.createVideo viteApiUrl url ∧
    NewApi.getVideos viteApiUrl = OldApi.getVideos viteApiUrl ∧
    NewApi.getStats viteApiUrl = OldApi.getStats viteApiUrl :=
  ⟨rfl, rfl, rfl⟩

/-! Pipeline data model.  The backend code is not among the sampled
sources, so every definition below is modelled from the spec. -/

/-- Modelled from the spec: Item.status values, section 3 (the backend
Item model is not among the sampled sources). -/
inductive VideoStatus
  | pending
  | downloading
  | processing
  | uploading
  | captioning
  | publishing
  | completed
  | failed
  deriving DecidableEq, Repr

/-- Modelled from the spec: the five pipeline task types, section 3. -/
inductive TaskType
  | download_video
  | process_video
  | upload_storage
  | generate_caption
  | upload_tiktok
  deriving DecidableEq, Repr

/-- Modelled from the spec: Job Record status values, section 3. -/
inductive JobStatus
  | pending
  | started
  | completed
  | failed
  deriving DecidableEq, Repr

/-- Modelled from the spec: the kind of a StepError, section 4.3. -/
inductive ErrKind
  | transient
  | permanent
  deriving DecidableEq, Repr

/-- Modelled from the spec: the outcome of one external call made by a Step
Executor: a typed success payload, or a StepError carrying kind and
message, section 4.3. -/
inductive StepOutcome
  | ok (payload : String)
  | err (kind : ErrKind) (msg : String)
  deriving DecidableEq, Repr

/-- Modelled from the spec: one Job Record, one attempt of one pipeline
step for one Item, section 3.  Within a single run a record is identified
by its task and attempt number. -/
structure JobRecord where
  task : TaskType
  attempt : Nat
  status : JobStatus
  error_message : Option String
  deriving DecidableEq, Repr

/-- Modelled from the spec: the store events the orchestrator issues
against the Job Record Store, section 4.1: create a record in pending,
mark it started, mark it completed, mark it failed. -/
inductive StoreEv
  | create (task : TaskType) (attempt : Nat)
  | start (task : TaskType) (attempt : Nat)
  | complete (task : TaskType) (attempt : Nat)
  | fail (task : TaskType) (attempt : Nat) (msg : String)
  deriving DecidableEq, Repr

/-- The task and attempt number a store event refers to. -/
def StoreEv.job : StoreEv → TaskType × Nat
  | .create t a => (t, a)
  | .start t a => (t, a)
  | .complete t a => (t, a)
  | .fail t a _ => (t, a)

/-- Whether a store event marks a record started. -/
def StoreEv.isStart : StoreEv → Bool
  | .start _ _ => true
  | _ => false

/-- Whether a store event moves a record to a terminal state. -/
def StoreEv.isTerminal : StoreEv → Bool
  | .complete _ _ => true
  | .fail _ _ _ => true
  | _ => false

/-- Modelled from the spec: exponential backoff delay slept before the
retry that follows a transient failure of the given attempt, section 4.3
(exponential backoff; the base doubles per attempt). -/
def backoffDelay (attempt : Nat) : Nat := 2 ^ attempt

/-- Modelled from the spec: default number of attempts of a Step Executor,
section 4.3 (N attempts, default 3). -/
def defaultAttempts : Nat := 3

/-- The observable effects of executing one pipeline step: the Job Records
it leaves in the store, the ordered store events it issued, the backoff
sleeps it performed between attempts, and on success the step payload. -/
structure StepResult where
  records : List JobRecord
  events : List StoreEv
  sleeps : List Nat
  payload : Option String
  deriving DecidableEq, Repr

/-- Modelled from the spec: run one Step Executor from a given attempt
number with a given number of remaining attempts, sections 3, 4.3 and 4.4:
every attempt creates a fresh Job Record pending, marks it started, then
marks it completed or failed with the error message; a transient error is
retried after a backoff sleep while attempts remain; a permanent error
aborts at once; records are never rewritten, a retry opens a new record. -/
def runStepFrom (call : Nat → StepOutcome) (t : TaskType) : Nat → Nat → StepResult
  | _, 0 => { records := [], events := [], sleeps := [], payload := none }
  | a, r + 1 =>
    match call a with
    | .ok payload =>
        { records := [⟨t, a, JobStatus.completed, none⟩],
          events := [.create t a, .start t a, .complete t a],
          sleeps := [], payload := some payload }
    | .err .permanent m =>
        { records := [⟨t, a, JobStatus.failed, some m⟩],
          events := [.create t a, .start t a, .fail t a m],
          sleeps := [], payload := none }
    | .err .transient m =>
        if r = 0 then
          { records := [⟨t, a, JobStatus.failed, some m⟩],
            events := [.create t a, .start t a, .fail t a m],
            sleeps := [], payload := none }
        else
          let rest := runStepFrom call t (a + 1) r
          { records := ⟨t, a, JobStatus.failed, some m⟩ :: rest.records,
            events := [.create t a, .start t a, .fail t a m] ++ rest.events,
            sleeps := backoffDelay a :: rest.sleeps,
            payload := rest.payload }

/-- Modelled from the spec: run one Step Executor with n configured
attempts, the first attempt being number one, section 4.1 (attempt_number
starts at one for a fresh item and task). -/
def runStep (call : Nat → StepOutcome) (t : TaskType) (n : Nat) : StepResult :=
  runStepFrom call t 1 n

/-- Modelled from the spec: the Item status the orchestrator sets while a
given step is in flight, section 4.4 fixed linear order. -/
def stageOf : TaskType → VideoStatus
  | .download_video => .downloading
  | .process_video => .processing
  | .upload_storage => .uploading
  | .generate_caption => .captioning
  | .upload_tiktok => .publishing

/-- Modelled from the spec: the successor of a status in the fixed linear
order of section 4.4; the terminal statuses have none. -/
def nextStage : VideoStatus → Option VideoStatus
  | .pending => some .downloading
  | .downloading => some .processing
  | .processing => some .uploading
  | .uploading => some .captioning
  | .captioning => some .publishing
  | .publishing => some .completed
  | .completed => none
  | .failed => none

/-- Modelled from the spec: the pipeline's fixed step order, section 4.4. -/
def pipelineTasks : List TaskType :=
  [.download_video, .process_video, .upload_storage, .generate_caption, .upload_tiktok]

/-- The observable outcome of one orchestration run: the successive Item
statuses, the Job Records and store events accumulated over all steps, the
caption and destination URL populated from the last two steps, and whether
the run succeeded. -/
structure RunResult where
  trace : List VideoStatus
  records : List JobRecord
  events : List StoreEv
  caption : Option String
  destination_url : Option String
  ok : Bool
  deriving DecidableEq, Repr

/-- Modelled from the spec: orchestrate the remaining steps, section 4.4
run: for each step in order set Item.status to the step's stage and execute
the step with its retry policy; on success keep the payload of the caption
and publish steps and continue; on failure set Item.status to failed and
stop, attempting no later step; after the last step the status becomes
completed. -/
def runTasks (env : TaskType → Nat → StepOutcome) : List TaskType → RunResult
  | [] =>
      { trace := [.completed], records := [], events := [],
        caption := none, destination_url := none, ok := true }
  | t :: ts =>
    let st := runStep (env t) t defaultAttempts
    match st.payload with
    | some payload =>
        let rest := runTasks env ts
        { trace := stageOf t :: rest.trace,
          records := st.records ++ rest.records,
          events := st.events ++ rest.events,
          caption := if t = .generate_caption then some payload else rest.caption,
          destination_url := if t = .upload_tiktok then some payload else rest.destination_url,
          ok := rest.ok }
    | none =>
        { trace := [stageOf t, .failed],
          records := st.records,
          events := st.events,
          caption := none, destination_url := none, ok := false }

/-- Modelled from the spec: one full orchestration run for one Item,
starting from the pending status that Submission Intake set, sections 2
and 4.4. -/
def run (env : TaskType → Nat → StepOutcome) : RunResult :=
  let r := runTasks env pipelineTasks
  { r with trace := VideoStatus.pending :: r.trace }

/-- Modelled from the spec: a legal Item status change, sections 4.4 and 8:
one stage forward in the fixed linear order, or to the absorbing failed
state from a state that is not terminal. -/
def StatusStep (a b : VideoStatus) : Prop :=
  nextStage a = some b ∨ (a ≠ .failed ∧ a ≠ .completed ∧ b = .failed)

instance (a b : VideoStatus) : Decidable (StatusStep a b) :=
  decidable_of_iff (nextStage a = some b ∨ (a ≠ .failed ∧ a ≠ .completed ∧ b = .failed)) Iff.rfl

/-- Helper: the status trace of the remaining steps is either the full
success trace, or cut by a failure after some step k. -/
theorem runTasks_trace_cases (env : TaskType → Nat → StepOutcome) (ts : List TaskType) :
    (runTasks env ts).trace = ts.map stageOf ++ [VideoStatus.completed] ∨
    ∃ k, k < ts.length ∧
      (runTasks env ts).trace = (ts.take (k + 1)).map stageOf ++ [VideoStatus.failed] := by
  induction ts with
  | nil => exact Or.inl rfl
  | cons t ts ih =>
    simp only [runTasks]
    cases hp : (runStep (env t) t defaultAttempts).payload with
    | none =>
      refine Or.inr ⟨0, by simp, ?_⟩
      simp
    | some payload =>
      rcases ih with h | ⟨k, hk, h⟩
      · exact Or.inl (by simp [h])
      · refine Or.inr ⟨k + 1, by simpa using Nat.succ_lt_succ hk, ?_⟩
        simp [h]

/-- Helper: a run that reports success produced the full linear trace. -/
theorem runTasks_ok_trace (env : TaskType → Nat → StepOutcome) (ts : List TaskType)
    (h : (runTasks env ts).ok = true) :
    (runTasks env ts).trace = ts.map stageOf ++ [VideoStatus.completed] := by
  induction ts with
  | nil => rfl
  | cons t ts ih =>
    simp only [runTasks] at h ⊢
    cases hp : (runStep (env t) t defaultAttempts).payload with
    | none => simp [hp] at h
    | some payload =>
      simp only [hp] at h ⊢
      simp [ih h]

/-- Helper: in a list that ends with its only failed entry, any
decomposition around a failed entry leaves nothing after it. -/
theorem failed_split_tail (xs l1 l2 : List VideoStatus)
    (hx : VideoStatus.failed ∉ xs)
    (h : xs ++ [VideoStatus.failed] = l1 ++ VideoStatus.failed :: l2) : l2 = [] := by
  induction xs generalizing l1 with
  | nil =>
    have hlen := congrArg List.length h
    simp at hlen
    exact List.length_eq_zero.mp (by omega)
  | cons y xs ih =>
    cases l1 with
    | nil =>
      simp at h hx
      exact absurd h.1 (Ne.symm hx.1)
    | cons z l1 =>
      simp at h hx
      exact ih l1 hx.2 h.2

/-- C1: every change of Item.status in a run moves one stage forward along
the fixed linear order or moves a non-terminal status to failed; a fully
successful run passes through every stage in order, skipping none; and
failed is absorbing: nothing follows it in any trace. -/
theorem item_status_transitions (env : TaskType → Nat → StepOutcome) :
    List.Chain' StatusStep (run env).trace ∧
    ((run env).ok = true →
      (run env).trace = [VideoStatus.pending, .downloading, .processing, .uploading,
        .captioning, .publishing, .completed]) ∧
    (∀ l1 l2, (run env).trace = l1 ++ VideoStatus.failed :: l2 → l2 = []) := by
  have hok : (run env).ok = (runTasks env pipelineTasks).ok := rfl
  have htr : (run env).trace = VideoStatus.pending :: (runTasks env pipelineTasks).trace := rfl
  refine ⟨?_, ?_, ?_⟩
  · rcases runTasks_trace_cases env pipelineTasks with h | ⟨k, hk, h⟩
    · rw [htr, h]
      simp [pipelineTasks, stageOf, List.chain'_cons, StatusStep, nextStage]
    · simp only [pipelineTasks, List.length_cons, List.length_nil] at hk
      rw [htr, h]
      interval_cases k <;>
        simp [pipelineTasks, stageOf, List.chain'_cons, StatusStep, nextStage]
  · intro hsucc
    rw [htr, runTasks_ok_trace env pipelineTasks (hok ▸ hsucc)]
    rfl
  · intro l1 l2 hsplit
    rcases runTasks_trace_cases env pipelineTasks with h | ⟨k, hk, h⟩
    · rw [htr, h] at hsplit
      have hmem : VideoStatus.failed ∈
          VideoStatus.pending :: (pipelineTasks.map stageOf ++ [VideoStatus.completed]) := by
        rw [hsplit]; simp
      exact absurd hmem (by decide)
    · simp only [pipelineTasks, List.length_cons, List.length_nil] at hk
      rw [htr, h] at hsplit
      have hx : VideoStatus.failed ∉
          VideoStatus.pending :: (pipelineTasks.take (k + 1)).map stageOf := by
        interval_cases k <;> decide
      exact failed_split_tail _ l1 l2 hx hsplit

/-- Modelled from the spec: an environment whose every external call
succeeds with a fixed destination URL, as in the happy-path scenario of
section 8. -/
def allOkEnv : TaskType → Nat → StepOutcome :=
  fun _ _ => StepOutcome.ok "https://www.tiktok.com/v/123"

/-- Witness for C1: the all-success environment satisfies the full-trace
hypothesis and produces the complete linear trace. -/
theorem item_status_transitions_witness :
    (run allOkEnv).ok = true ∧
    (run allOkEnv).trace = [VideoStatus.pending, .downloading, .processing, .uploading,
      .captioning, .publishing, .completed] :=
  ⟨rfl, (item_status_transitions allOkEnv).2.1 rfl⟩

/-! Job Record discipline: the event log decomposes into per-attempt blocks. -/

/-- Attempt numbers of the create events of one task, in log order. -/
def createAttempts (l : List StoreEv) (t : TaskType) : List Nat :=
  l.filterMap fun e =>
    match e with
    | .create t2 a => if t2 = t then some a else none
    | _ => none

/-- Number of start events for records of one task in a log. -/
def startCount (t : TaskType) (l : List StoreEv) : Nat :=
  (l.filter fun e => e.isStart && decide (e.job.1 = t)).length

/-- Number of terminal events for records of one task in a log. -/
def termCount (t : TaskType) (l : List StoreEv) : Nat :=
  (l.filter fun e => e.isTerminal && decide (e.job.1 = t)).length

/-- The block of store events of one attempt: create, start, then the
terminal event: complete when the result field is none, fail with the
recorded message otherwise. -/
def attemptBlock : TaskType × Nat × Option String → List StoreEv
  | (t, a, none) => [.create t a, .start t a, .complete t a]
  | (t, a, some m) => [.create t a, .start t a, .fail t a m]

/-- The record identity of a block: its task and attempt number. -/
def blockJob (b : TaskType × Nat × Option String) : TaskType × Nat := (b.1, b.2.1)

/-- Attempt numbers of the blocks of one task, in order. -/
def attemptsOf (bl : List (TaskType × Nat × Option String)) (t : TaskType) : List Nat :=
  bl.filterMap fun b => if b.1 = t then some b.2.1 else none

/-- Helper: attemptsOf distributes over append. -/
theorem attemptsOf_append (b1 b2 : List (TaskType × Nat × Option String)) (t : TaskType) :
    attemptsOf (b1 ++ b2) t = attemptsOf b1 t ++ attemptsOf b2 t :=
  List.filterMap_append b1 b2 _

/-- Helper: the attempts of the task all step blocks belong to. -/
theorem attemptsOf_map_self (sbl : List (Nat × Option String)) (t : TaskType) :
    attemptsOf (sbl.map fun p => (t, p.1, p.2)) t = sbl.map Prod.fst := by
  induction sbl with
  | nil => rfl
  | cons p sbl ih => simp [attemptsOf] at ih ⊢; exact ih

/-- Helper: step blocks contribute no attempts to a different task. -/
theorem attemptsOf_map_other (sbl : List (Nat × Option String)) (t t2 : TaskType)
    (h : t2 ≠ t) : attemptsOf (sbl.map fun p => (t, p.1, p.2)) t2 = [] := by
  unfold attemptsOf
  rw [List.filterMap_map]
  simp [Function.comp, Ne.symm h]

/-- Helper: blocks whose tasks avoid t contribute no attempts for t. -/
theorem attemptsOf_eq_nil (bl : List (TaskType × Nat × Option String)) (t : TaskType)
    (h : ∀ b ∈ bl, b.1 ≠ t) : attemptsOf bl t = [] := by
  induction bl with
  | nil => rfl
  | cons b bl ih =>
    have hb := h b (by simp)
    simp only [attemptsOf, List.filterMap_cons, if_neg hb]
    exact ih fun b2 hb2 => h b2 (by simp [hb2])

/-- Helper: the events of one Step Executor run decompose into blocks of
one task with strictly increasing attempt numbers bounded below by the
starting attempt. -/
theorem runStepFrom_events_blocks (call : Nat → StepOutcome) (t : TaskType) (r a : Nat) :
    ∃ sbl : List (Nat × Option String),
      (runStepFrom call t a r).events = ((sbl.map fun p => (t, p.1, p.2)).map attemptBlock).flatten ∧
      List.Chain' (fun x y => x < y) (sbl.map Prod.fst) ∧
      ∀ p ∈ sbl, a ≤ p.1 := by
  induction r generalizing a with
  | zero => exact ⟨[], rfl, by simp, by simp⟩
  | succ r ih =>
    cases hc : call a with
    | ok payload =>
      exact ⟨[(a, none)], by simp [runStepFrom, hc, attemptBlock], by simp, by simp⟩
    | err k m =>
      cases k with
      | permanent =>
        exact ⟨[(a, some m)], by simp [runStepFrom, hc, attemptBlock], by simp, by simp⟩
      | transient =>
        by_cases hr : r = 0
        · subst hr
          exact ⟨[(a, some m)], by simp [runStepFrom, hc, attemptBlock], by simp, by simp⟩
        · obtain ⟨sbl, he, hch, hge⟩ := ih (a + 1)
          refine ⟨(a, some m) :: sbl, ?_, ?_, ?_⟩
          · simp [runStepFrom, hc, hr, attemptBlock, he]
          · rw [List.map_cons, List.chain'_cons']
            refine ⟨?_, hch⟩
            intro h hh
            cases sbl with
            | nil => simp at hh
            | cons p sbl2 =>
              simp at hh
              have := hge p (by simp)
              omega
          · intro p hp
            rcases List.mem_cons.mp hp with h | h
            · simp [h]
            · have := hge p h
              omega

/-- Helper: the events of an orchestration over any duplicate-free task
list decompose into attempt blocks whose tasks come from the list, whose
attempts per task strictly increase, and whose record identities are
pairwise distinct. -/
theorem runTasks_events_blocks (env : TaskType → Nat → StepOutcome) (ts : List TaskType)
    (hnd : ts.Nodup) :
    ∃ bl : List (TaskType × Nat × Option String),
      (runTasks env ts).events = (bl.map attemptBlock).flatten ∧
      (∀ b ∈ bl, b.1 ∈ ts) ∧
      (∀ t, List.Chain' (fun x y => x < y) (attemptsOf bl t)) ∧
      (bl.map blockJob).Nodup := by
  induction ts with
  | nil => exact ⟨[], rfl, by simp, fun t => by simp [attemptsOf], by simp⟩
  | cons t ts ih =>
    rw [List.nodup_cons] at hnd
    obtain ⟨sbl, hse, hsch, hsge⟩ := runStepFrom_events_blocks (env t) t defaultAttempts 1
    have hstepNodup : ((sbl.map fun p => (t, p.1, p.2)).map blockJob).Nodup := by
      have hattNodup : (sbl.map Prod.fst).Nodup :=
        (List.chain'_iff_pairwise.mp hsch).nodup
      have : (sbl.map fun p => (t, p.1, p.2)).map blockJob = sbl.map fun p => (t, p.1) := by
        simp [blockJob]
      rw [this]
      have hinj : ∀ p ∈ sbl, ∀ q ∈ sbl, (t, p.1) = (t, q.1) → p.1 = q.1 := by
        intro p _ q _ hpq
        simpa using congrArg Prod.snd hpq
      have := hattNodup.map (f := fun x : Nat => (t, x)) (fun x y hxy => by simpa using hxy)
      simpa [Function.comp] using this
    have hstepAtt : ∀ t2, List.Chain' (fun x y => x < y)
        (attemptsOf (sbl.map fun p => (t, p.1, p.2)) t2) := by
      intro t2
      by_cases ht2 : t2 = t
      · subst ht2; rw [attemptsOf_map_self]; exact hsch
      · rw [attemptsOf_map_other sbl t t2 ht2]; simp
    simp only [runTasks]
    cases hp : (runStep (env t) t defaultAttempts).payload with
    | none =>
      refine ⟨sbl.map fun p => (t, p.1, p.2), ?_, ?_, hstepAtt, hstepNodup⟩
      · simpa [runStep] using hse
      · intro b hb
        rw [List.mem_map] at hb
        obtain ⟨p, hmem, hpb⟩ := hb
        rw [← hpb]
        exact List.mem_cons_self t ts
    | some payload =>
      obtain ⟨rbl, hre, hrtasks, hratt, hrnodup⟩ := ih hnd.2
      refine ⟨(sbl.map fun p => (t, p.1, p.2)) ++ rbl, ?_, ?_, ?_, ?_⟩
      · simp only [List.map_append, List.flatten_append, runStep]
        rw [hse, hre]
      · intro b hb
        rcases List.mem_append.mp hb with h | h
        · rw [List.mem_map] at h
          obtain ⟨p, hmem, hpb⟩ := h
          rw [← hpb]
          exact List.mem_cons_self t ts
        · exact List.mem_cons_of_mem t (hrtasks b h)
      · intro t2
        rw [attemptsOf_append]
        by_cases ht2 : t2 = t
        · subst ht2
          rw [attemptsOf_eq_nil rbl t2 (fun b hb => fun hbt => hnd.1 (hbt ▸ hrtasks b hb)),
            List.append_nil, attemptsOf_map_self]
          exact hsch
        · rw [attemptsOf_map_other sbl t t2 ht2, List.nil_append]
          exact hratt t2
      · rw [List.map_append, List.nodup_append]
        refine ⟨hstepNodup, hrnodup, ?_⟩
        intro j hj1 hj2
        rw [List.mem_map] at hj1 hj2
        obtain ⟨bs, hbs, hjs⟩ := hj1
        obtain ⟨br, hbr, hjr⟩ := hj2
        rw [List.mem_map] at hbs
        obtain ⟨p, hp2, hpb⟩ := hbs
        have hjt : j.1 = t := by rw [← hjs, ← hpb]; rfl
        have hbf : br.1 = j.1 := congrArg Prod.fst hjr
        exact hnd.1 ((hbf.trans hjt) ▸ hrtasks br hbr)

/-- Helper: create attempts extracted from a joined block list are exactly
the block attempts of that task. -/
theorem createAttempts_flatten (bl : List (TaskType × Nat × Option String)) (t : TaskType) :
    createAttempts ((bl.map attemptBlock).flatten) t = attemptsOf bl t := by
  induction bl with
  | nil => rfl
  | cons b bl ih =>
    rcases b with ⟨t2, a2, res⟩
    rw [List.map_cons, List.flatten_cons]
    unfold createAttempts at ih ⊢
    rw [List.filterMap_append]
    unfold attemptsOf at ih ⊢
    rw [List.filterMap_cons]
    by_cases h : t2 = t
    · cases res <;> simp [attemptBlock, h, ih]
    · cases res <;> simp [attemptBlock, h, ih]

/-- Helper: the length of every attempt block is three. -/
theorem attemptBlock_length (b : TaskType × Nat × Option String) :
    (attemptBlock b).length = 3 := by
  rcases b with ⟨t, a, res⟩
  cases res <;> rfl

/-- Helper: within a single attempt block, every prefix has at most one
more start than terminal events, and the full block balances them. -/
theorem attemptBlock_counts (b : TaskType × Nat × Option String) (t : TaskType) :
    (∀ n, startCount t ((attemptBlock b).take n) ≤ termCount t ((attemptBlock b).take n) + 1) ∧
    startCount t (attemptBlock b) = termCount t (attemptBlock b) := by
  rcases b with ⟨t2, a2, res⟩
  constructor
  · intro n
    by_cases h : t2 = t <;>
      cases res <;>
        rcases n with _ | _ | _ | n <;>
          simp [attemptBlock, startCount, termCount, StoreEv.isStart, StoreEv.isTerminal,
            StoreEv.job, h]
  · by_cases h : t2 = t <;>
      cases res <;>
        simp [attemptBlock, startCount, termCount, StoreEv.isStart, StoreEv.isTerminal,
          StoreEv.job, h]

/-- Helper: in any prefix of a joined block list, the number of records of
one task marked started exceeds the number marked terminal by at most one:
at most one record per task is in the started state at any moment. -/
theorem flatten_counts (bl : List (TaskType × Nat × Option String)) (t : TaskType) (n : Nat) :
    startCount t (((bl.map attemptBlock).flatten).take n) ≤
      termCount t (((bl.map attemptBlock).flatten).take n) + 1 := by
  induction bl generalizing n with
  | nil => simp [startCount, termCount]
  | cons b bl ih =>
    rw [List.map_cons, List.flatten_cons, List.take_append_eq_append_take]
    unfold startCount termCount
    rw [List.filter_append, List.length_append, List.filter_append, List.length_append]
    have hb := attemptBlock_counts b t
    by_cases hn : n ≤ 3
    · have hz : n - (attemptBlock b).length = 0 := by rw [attemptBlock_length]; omega
      rw [hz]
      simp only [List.take_zero, List.filter_nil, List.length_nil, Nat.add_zero]
      exact hb.1 n
    · have hfull : (attemptBlock b).take n = attemptBlock b :=
        List.take_of_length_le (by rw [attemptBlock_length]; omega)
      rw [hfull]
      have := ih (n - (attemptBlock b).length)
      unfold startCount termCount at this
      have hbal := hb.2
      unfold startCount termCount at hbal
      omega

/-- Helper: events of blocks whose record identity misses a given job
contribute nothing to the filter for that job. -/
theorem flatten_filter_not_mem (bl : List (TaskType × Nat × Option String)) (t : TaskType)
    (a : Nat) (h : (t, a) ∉ bl.map blockJob) :
    ((bl.map attemptBlock).flatten).filter (fun e => decide (e.job = (t, a))) = [] := by
  induction bl with
  | nil => rfl
  | cons b bl ih =>
    rcases b with ⟨t2, a2, res⟩
    simp only [List.map_cons, List.mem_cons, blockJob] at h
    push_neg at h
    rw [List.map_cons, List.flatten_cons, List.filter_append]
    have h1 : (attemptBlock (t2, a2, res)).filter (fun e => decide (e.job = (t, a))) = [] := by
      cases res <;> simp [attemptBlock, StoreEv.job] <;>
        exact fun hht hha => h.1 (by rw [hht, hha])
    rw [h1, List.nil_append]
    exact ih h.2

/-- Helper: filtering a joined block list with pairwise distinct record
identities for one job yields nothing or exactly that job's block. -/
theorem flatten_filter_shape (bl : List (TaskType × Nat × Option String)) (t : TaskType)
    (a : Nat) (hnd : (bl.map blockJob).Nodup) :
    ((bl.map attemptBlock).flatten).filter (fun e => decide (e.job = (t, a))) = [] ∨
    ∃ res, (t, a, res) ∈ bl ∧
      ((bl.map attemptBlock).flatten).filter (fun e => decide (e.job = (t, a))) =
        attemptBlock (t, a, res) := by
  induction bl with
  | nil => exact Or.inl rfl
  | cons b bl ih =>
    rcases b with ⟨t2, a2, res2⟩
    rw [List.map_cons, List.nodup_cons] at hnd
    rw [List.map_cons, List.flatten_cons, List.filter_append]
    by_cases hj : (t2, a2) = (t, a)
    · have hfirst : (attemptBlock (t2, a2, res2)).filter (fun e => decide (e.job = (t, a))) =
          attemptBlock (t2, a2, res2) := by
        cases res2 <;> simp [attemptBlock, StoreEv.job, hj]
      have hrest : ((bl.map attemptBlock).flatten).filter
          (fun e => decide (e.job = (t, a))) = [] := by
        refine flatten_filter_not_mem bl t a ?_
        have : blockJob (t2, a2, res2) = (t, a) := hj
        rw [← this]
        exact hnd.1
      rw [hfirst, hrest, List.append_nil]
      rcases Prod.mk.injEq .. ▸ hj with ⟨ht, ha⟩
      exact Or.inr ⟨res2, by rw [← ht, ← ha]; exact List.mem_cons_self _ _, by rw [← ht, ← ha]⟩
    · have hfirst : (attemptBlock (t2, a2, res2)).filter
          (fun e => decide (e.job = (t, a))) = [] := by
        cases res2 <;> simp [attemptBlock, StoreEv.job, hj]
      rw [hfirst, List.nil_append]
      rcases ih hnd.2 with h | ⟨res, hmem, heq⟩
      · exact Or.inl h
      · exact Or.inr ⟨res, List.mem_cons_of_mem _ hmem, heq⟩

/-- C2: within one run, create events per task carry strictly increasing
attempt numbers; in every prefix of the store-event log at most one record
per task is started but not yet terminal; and the full event history of any
record identity is empty or exactly create, start, then a single terminal
event: records are never touched after completion or failure, every retry
opens a fresh record. -/
theorem job_record_discipline (env : TaskType → Nat → StepOutcome) (t : TaskType)
    (a n : Nat) :
    List.Chain' (fun x y => x < y) (createAttempts (run env).events t) ∧
    startCount t ((run env).events.take n) ≤ termCount t ((run env).events.take n) + 1 ∧
    ((run env).events.filter (fun e => decide (e.job = (t, a))) = [] ∨
      (run env).events.filter (fun e => decide (e.job = (t, a))) =
        [StoreEv.create t a, StoreEv.start t a, StoreEv.complete t a] ∨
      ∃ m, (run env).events.filter (fun e => decide (e.job = (t, a))) =
        [StoreEv.create t a, StoreEv.start t a, StoreEv.fail t a m]) := by
  have hev : (run env).events = (runTasks env pipelineTasks).events := rfl
  obtain ⟨bl, he, htasks, hatt, hnodup⟩ :=
    runTasks_events_blocks env pipelineTasks (by decide)
  rw [hev, he]
  refine ⟨?_, ?_, ?_⟩
  · rw [createAttempts_flatten]
    exact hatt t
  · exact flatten_counts bl t n
  · rcases flatten_filter_shape bl t a hnodup with h | ⟨res, hmem, heq⟩
    · exact Or.inl h
    · cases res with
      | none => exact Or.inr (Or.inl heq)
      | some m => exact Or.inr (Or.inr ⟨m, heq⟩)

/-! Retry policy of a Step Executor. -/

/-- Helper: when every call from the starting attempt on fails transiently,
the executor uses every remaining attempt: one failed record per attempt,
no payload, and a positive backoff sleep between consecutive attempts. -/
theorem runStepFrom_all_transient (call : Nat → StepOutcome) (t : TaskType) (r a : Nat)
    (h : ∀ x, a ≤ x → ∃ m, call x = StepOutcome.err .transient m) (hr : 1 ≤ r) :
    (runStepFrom call t a r).records.length = r ∧
    (runStepFrom call t a r).payload = none ∧
    (∀ rec ∈ (runStepFrom call t a r).records, rec.status = JobStatus.failed) ∧
    (runStepFrom call t a r).sleeps.length = r - 1 ∧
    ∀ s ∈ (runStepFrom call t a r).sleeps, 0 < s := by
  induction r generalizing a with
  | zero => omega
  | succ r ih =>
    obtain ⟨m, hm⟩ := h a le_rfl
    by_cases hr0 : r = 0
    · subst hr0
      refine ⟨?_, ?_, ?_, ?_, ?_⟩ <;> simp [runStepFrom, hm]
    · obtain ⟨ihl, ihp, ihs, ihsl, ihpos⟩ := ih (a + 1) (fun x hx => h x (by omega)) (by omega)
      refine ⟨?_, ?_, ?_, ?_, ?_⟩
      · simp [runStepFrom, hm, hr0, ihl]
      · simp [runStepFrom, hm, hr0, ihp]
      · intro rec hrec
        simp only [runStepFrom, hm, if_neg hr0] at hrec
        rcases List.mem_cons.mp hrec with hh | hh
        · rw [hh]
        · exact ihs rec hh
      · simp [runStepFrom, hm, hr0, ihsl]
        omega
      · intro s hs
        simp only [runStepFrom, hm, if_neg hr0] at hs
        rcases List.mem_cons.mp hs with hh | hh
        · rw [hh]; exact Nat.pos_pow_of_pos a (by omega)
        · exact ihpos s hh

/-- Helper: a permanent error at attempt k, with transient errors before
it, stops the executor at attempt k: records for attempts up to k only, no
payload, and one fewer sleeps than records. -/
theorem runStepFrom_permanent_stops (call : Nat → StepOutcome) (t : TaskType) (r a k : Nat)
    (m : String)
    (hbound : a ≤ k) (hlt : k < a + r)
    (hk : call k = StepOutcome.err .permanent m)
    (hbefore : ∀ x, a ≤ x → x < k → ∃ m2, call x = StepOutcome.err .transient m2) :
    (runStepFrom call t a r).records.length = k - a + 1 ∧
    (runStepFrom call t a r).payload = none ∧
    (runStepFrom call t a r).sleeps.length = k - a := by
  induction r generalizing a with
  | zero => omega
  | succ r ih =>
    by_cases hak : a = k
    · subst hak
      refine ⟨?_, ?_, ?_⟩ <;> simp [runStepFrom, hk]
    · obtain ⟨m2, hm2⟩ := hbefore a le_rfl (by omega)
      have hr0 : r ≠ 0 := by omega
      obtain ⟨ihl, ihp, ihsl⟩ := ih (a + 1) (by omega) (by omega)
        (fun x hx1 hx2 => hbefore x (by omega) hx2)
      refine ⟨?_, ?_, ?_⟩
      · simp [runStepFrom, hm2, hr0, ihl]
        omega
      · simp [runStepFrom, hm2, hr0, ihp]
      · simp [runStepFrom, hm2, hr0, ihsl]
        omega

/-- Modelled from the spec: an external call that fails transiently on
every attempt, as in the retry-exhaustion property of section 8. -/
def alwaysTransient : Nat → StepOutcome :=
  fun _ => StepOutcome.err .transient "rate limited"

/-- Modelled from the spec: an external call that fails transiently on the
first attempt and permanently on the second. -/
def permAtTwo : Nat → StepOutcome :=
  fun x => if x < 2 then StepOutcome.err .transient "rate limited"
    else StepOutcome.err .permanent "post not found"

/-- C4: a Step Executor whose call always fails transiently makes exactly
its configured number of attempts, default three, each leaving a failed
record, with a positive backoff sleep between consecutive attempts, before
surfacing failure; a permanent error at attempt k aborts there, with
exactly k attempts made and the remaining attempts not consumed. -/
theorem step_retry_policy (call : Nat → StepOutcome) (t : TaskType) (n k : Nat) :
    defaultAttempts = 3 ∧
    ((∀ x, 1 ≤ x → ∃ m, call x = StepOutcome.err .transient m) → 1 ≤ n →
      (runStep call t n).records.length = n ∧
      (runStep call t n).payload = none ∧
      (∀ rec ∈ (runStep call t n).records, rec.status = JobStatus.failed) ∧
      (runStep call t n).sleeps.length = n - 1 ∧
      ∀ s ∈ (runStep call t n).sleeps, 0 < s) ∧
    ((∃ m, call k = StepOutcome.err .permanent m) →
      (∀ x, 1 ≤ x → x < k → ∃ m2, call x = StepOutcome.err .transient m2) →
      1 ≤ k → k ≤ n →
      (runStep call t n).records.length = k ∧
      (runStep call t n).payload = none ∧
      (runStep call t n).sleeps.length = k - 1) := by
  refine ⟨rfl, ?_, ?_⟩
  · intro h hn
    exact runStepFrom_all_transient call t n 1 h hn
  · intro hperm hbefore hk hkn
    obtain ⟨m, hm⟩ := hperm
    have := runStepFrom_permanent_stops call t n 1 k m hk (by omega) hm
      (fun x hx1 hx2 => hbefore x hx1 hx2)
    refine ⟨?_, this.2.1, ?_⟩
    · unfold runStep
      rw [this.1]
      omega
    · unfold runStep
      rw [this.2.2]

/-- Witness for C4: exhausting three transient attempts leaves three
records, and a permanent error on the second attempt leaves two. -/
theorem step_retry_policy_witness :
    (runStep alwaysTransient TaskType.upload_storage defaultAttempts).records.length = 3 ∧
    (runStep permAtTwo TaskType.download_video defaultAttempts).records.length = 2 := by
  constructor
  · have h := (step_retry_policy alwaysTransient TaskType.upload_storage defaultAttempts 0).2.1
      (fun x hx => ⟨"rate limited", rfl⟩) (by decide)
    exact h.1
  · have h := (step_retry_policy permAtTwo TaskType.download_video defaultAttempts 2).2.2
      ⟨"post not found", rfl⟩
      (fun x hx1 hx2 => ⟨"rate limited", by unfold permAtTwo; rw [if_pos hx2]⟩)
      (by decide) (by decide)
    exact h.1

/-! Full-success and permanent-failure scenarios. -/

/-- Helper: all records of one executor run belong to its task, with
attempt numbers at or above the starting attempt. -/
theorem runStepFrom_records_facts (call : Nat → StepOutcome) (t : TaskType) (r a : Nat) :
    ∀ rec ∈ (runStepFrom call t a r).records, rec.task = t ∧ a ≤ rec.attempt := by
  induction r generalizing a with
  | zero => intro rec hrec; simp [runStepFrom] at hrec
  | succ r ih =>
    intro rec hrec
    cases hc : call a with
    | ok payload =>
      simp only [runStepFrom, hc] at hrec
      simp at hrec
      simp [hrec]
    | err k m =>
      cases k with
      | permanent =>
        simp only [runStepFrom, hc] at hrec
        simp at hrec
        simp [hrec]
      | transient =>
        by_cases hr : r = 0
        · subst hr
          simp only [runStepFrom, hc] at hrec
          simp at hrec
          simp [hrec]
        · simp only [runStepFrom, hc, if_neg hr] at hrec
          rcases List.mem_cons.mp hrec with hh | hh
          · simp [hh]
          · have := ih (a + 1) rec hh
            exact ⟨this.1, by omega⟩

/-- Helper: a successful executor run has exactly one completed record,
carrying its task, the attempt whose call returned the payload, and no
error message. -/
theorem runStepFrom_success (call : Nat → StepOutcome) (t : TaskType) (r a : Nat) (p : String)
    (h : (runStepFrom call t a r).payload = some p) :
    ∃ a2, a ≤ a2 ∧ call a2 = StepOutcome.ok p ∧
      (runStepFrom call t a r).records.filter
        (fun rec => decide (rec.status = JobStatus.completed)) =
        [⟨t, a2, JobStatus.completed, none⟩] := by
  induction r generalizing a with
  | zero => simp [runStepFrom] at h
  | succ r ih =>
    cases hc : call a with
    | ok payload =>
      simp only [runStepFrom, hc] at h ⊢
      have hp : payload = p := by simpa using h
      subst hp
      exact ⟨a, le_rfl, hc, by simp⟩
    | err k m =>
      cases k with
      | permanent => simp [runStepFrom, hc] at h
      | transient =>
        by_cases hr : r = 0
        · subst hr; simp [runStepFrom, hc] at h
        · simp only [runStepFrom, hc, if_neg hr] at h ⊢
          obtain ⟨a2, ha2, hcall, hfilter⟩ := ih (a + 1) h
          exact ⟨a2, by omega, hcall, by simp [hfilter]⟩

/-- Helper: a successful orchestration leaves completed records whose tasks
are exactly the executed steps in order, and every record has attempt
number at least one and a task from the step list. -/
theorem runTasks_ok_records (env : TaskType → Nat → StepOutcome) (ts : List TaskType)
    (h : (runTasks env ts).ok = true) :
    ((runTasks env ts).records.filter
      (fun rec => decide (rec.status = JobStatus.completed))).map (fun rec => rec.task) = ts ∧
    ∀ rec ∈ (runTasks env ts).records, 1 ≤ rec.attempt ∧ rec.task ∈ ts := by
  induction ts with
  | nil => exact ⟨rfl, by intro rec hrec; simp [runTasks] at hrec⟩
  | cons t ts ih =>
    simp only [runTasks] at h ⊢
    cases hp : (runStep (env t) t defaultAttempts).payload with
    | none => simp [hp] at h
    | some payload =>
      simp only [hp] at h ⊢
      obtain ⟨ihmap, ihrec⟩ := ih h
      constructor
      · rw [List.filter_append, List.map_append]
        obtain ⟨a2, ha2, hcall, hfilter⟩ :=
          runStepFrom_success (env t) t defaultAttempts 1 payload hp
        rw [show (runStep (env t) t defaultAttempts).records =
          (runStepFrom (env t) t 1 defaultAttempts).records from rfl, hfilter, ihmap]
        rfl
      · intro rec hrec
        rcases List.mem_append.mp hrec with hh | hh
        · have := runStepFrom_records_facts (env t) t defaultAttempts 1 rec hh
          exact ⟨this.2, by simp [this.1]⟩
        · obtain ⟨h1, h2⟩ := ihrec rec hh
          exact ⟨h1, List.mem_cons_of_mem t h2⟩

/-- Helper: a successful orchestration that includes the publish step took
its destination URL from a successful publish call. -/
theorem runTasks_dest (env : TaskType → Nat → StepOutcome) (ts : List TaskType)
    (hmem : TaskType.upload_tiktok ∈ ts) (hok : (runTasks env ts).ok = true) :
    ∃ p a2, (runTasks env ts).destination_url = some p ∧
      env TaskType.upload_tiktok a2 = StepOutcome.ok p := by
  induction ts with
  | nil => simp at hmem
  | cons t ts ih =>
    simp only [runTasks] at hok ⊢
    cases hp : (runStep (env t) t defaultAttempts).payload with
    | none => simp [hp] at hok
    | some payload =>
      simp only [hp] at hok ⊢
      by_cases ht : t = TaskType.upload_tiktok
      · obtain ⟨a2, ha2, hcall, hfilter⟩ :=
          runStepFrom_success (env t) t defaultAttempts 1 payload hp
        subst ht
        exact ⟨payload, a2, by simp, hcall⟩
      · have hmem2 : TaskType.upload_tiktok ∈ ts := by
          rcases List.mem_cons.mp hmem with hh | hh
          · exact absurd hh.symm ht
          · exact hh
        obtain ⟨p, a2, hdest, hcall⟩ := ih hmem2 hok
        exact ⟨p, a2, by simp [ht, hdest], hcall⟩

/-- C3: a run in which every step eventually succeeds, the publisher
returning a destination URL, ends with status completed, a non-empty
destination_url, and exactly five completed Job Records whose tasks are
the five task types in pipeline order; every Job Record of the run has
attempt number at least one and a task among those five. -/
theorem pipeline_full_success (env : TaskType → Nat → StepOutcome)
    (hok : (run env).ok = true)
    (hurl : ∀ a p, env TaskType.upload_tiktok a = StepOutcome.ok p → p ≠ "") :
    (run env).trace.getLast? = some VideoStatus.completed ∧
    (∃ u, (run env).destination_url = some u ∧ u ≠ "") ∧
    ((run env).records.filter
      (fun rec => decide (rec.status = JobStatus.completed))).length = 5 ∧
    ((run env).records.filter
      (fun rec => decide (rec.status = JobStatus.completed))).map (fun rec => rec.task) =
      pipelineTasks ∧
    ∀ rec ∈ (run env).records, 1 ≤ rec.attempt ∧ rec.task ∈ pipelineTasks := by
  have hok2 : (runTasks env pipelineTasks).ok = true := hok
  obtain ⟨hmap, hrec⟩ := runTasks_ok_records env pipelineTasks hok2
  refine ⟨?_, ?_, ?_, hmap, hrec⟩
  · have hfull := runTasks_ok_trace env pipelineTasks hok2
    have htr : (run env).trace = VideoStatus.pending :: (runTasks env pipelineTasks).trace := rfl
    rw [htr, hfull]
    rfl
  · obtain ⟨p, a2, hdest, hcall⟩ := runTasks_dest env pipelineTasks (by decide) hok2
    exact ⟨p, hdest, hurl a2 p hcall⟩
  · have hlen := congrArg List.length hmap
    simpa [pipelineTasks] using hlen

/-- Witness for C3: the all-success environment satisfies both hypotheses
and yields the completed final status and the five completed records in
pipeline order. -/
theorem pipeline_full_success_witness :
    (run allOkEnv).trace.getLast? = some VideoStatus.completed ∧
    ((run allOkEnv).records.filter
      (fun rec => decide (rec.status = JobStatus.completed))).map (fun rec => rec.task) =
      pipelineTasks := by
  have h := pipeline_full_success allOkEnv rfl ?_
  · exact ⟨h.1, h.2.2.2.1⟩
  · intro a p hp
    have hps : p = "https://www.tiktok.com/v/123" := by
      simp [allOkEnv] at hp
      exact hp.symm
    subst hps
    decide

/-- Modelled from the spec: an environment whose external calls fail
permanently with a not-found error, as in the failure scenario of
section 8. -/
def notFoundEnv : TaskType → Nat → StepOutcome :=
  fun _ _ => StepOutcome.err .permanent "post not found"

/-- C6: a permanent download error stops the run at once: the status trace
is pending, downloading, failed, the store holds exactly one Job Record,
the failed download_video record carrying the error message, no record of
any later step exists, and no destination URL is set. -/
theorem download_permanent_failure (env : TaskType → Nat → StepOutcome) (m : String)
    (h : env TaskType.download_video 1 = StepOutcome.err .permanent m) :
    (run env).trace = [VideoStatus.pending, VideoStatus.downloading, VideoStatus.failed] ∧
    (run env).records = [⟨TaskType.download_video, 1, JobStatus.failed, some m⟩] ∧
    (run env).ok = false ∧
    (run env).destination_url = none := by
  refine ⟨?_, ?_, ?_, ?_⟩ <;>
    simp [run, runTasks, pipelineTasks, runStep, runStepFrom, defaultAttempts, h, stageOf]

/-- Witness for C6: the permanent-failure environment instantiates the
hypothesis and shows the single failed download record. -/
theorem download_permanent_failure_witness :
    (run notFoundEnv).trace =
      [VideoStatus.pending, VideoStatus.downloading, VideoStatus.failed] ∧
    (run notFoundEnv).records =
      [⟨TaskType.download_video, 1, JobStatus.failed, some "post not found"⟩] :=
  ⟨(download_permanent_failure notFoundEnv "post not found" rfl).1,
   (download_permanent_failure notFoundEnv "post not found" rfl).2.1⟩

/-! AI caption service. -/

/-- Modelled from the spec: whether a hashtag is normalized: a leading hash
sign followed by at least one character, with no space and no further hash
sign, sections 4.3 and Phase 5 notes. -/
def isNormalizedTag (s : String) : Bool :=
  match s.data with
  | [] => false
  | c :: rest => c == '#' && !rest.isEmpty && rest.all (fun d => d != ' ' && d != '#')

/-- Modelled from the spec: the deterministic fallback hashtag set used
when the provider is unavailable, Phase 5 notes. -/
def fallbackHashtags : List String :=
  ["#reels", "#instagram", "#tiktok", "#viral", "#fyp"]

/-- Modelled from the spec: the deterministic fallback caption, derived
from the Item's source URL, section 4.3 and Phase 5 notes. -/
def fallbackCaption (source_url : String) : String :=
  "Fresh repost, source: " ++ source_url

/-- Modelled from the spec: captions are bounded to 150 characters, Phase 5
notes. -/
def truncate150 (s : String) : String := String.mk (s.data.take 150)

/-- Modelled from the spec: normalize the provider's hashtag list to
between four and eight normalized tags: malformed tags are dropped, at
most eight kept, and the deterministic fallback set fills up to at least
four, Phase 5 notes. -/
def normalizeTags (tags : List String) : List String :=
  let cleaned := (tags.filter (fun s => isNormalizedTag s)).take 8
  if cleaned.length < 4 then (cleaned ++ fallbackHashtags).take 8 else cleaned

/-- Modelled from the spec: call the caption provider with the given number
of remaining attempts, Phase 5 notes (retry up to three attempts). -/
def callProvider (provider : Nat → Option (String × List String)) :
    Nat → Nat → Option (String × List String)
  | _, 0 => none
  | a, r + 1 =>
    match provider a with
    | some res => some res
    | none => callProvider provider (a + 1) r

/-- Modelled from the spec: the caption step, section 4.3 and Phase 5
notes: with no API key configured the deterministic fallback derived from
the source URL is returned at once; otherwise the provider is tried up to
three times; provider failure degrades to the same fallback; a provider
result is bounded to 150 characters, an empty caption replaced by the
fallback caption, and the hashtags normalized.  The function is total:
this path degrades, it never raises. -/
def generate_caption (apiKey : Option String)
    (provider : Nat → Option (String × List String)) (source_url : String) :
    String × List String :=
  match apiKey with
  | none => (fallbackCaption source_url, fallbackHashtags)
  | some _ =>
    match callProvider provider 1 3 with
    | none => (fallbackCaption source_url, fallbackHashtags)
    | some (c, tags) =>
      (if c = "" then fallbackCaption source_url else truncate150 c, normalizeTags tags)

/-- Helper: the fallback caption is never the empty string. -/
theorem fallbackCaption_ne_empty (source_url : String) :
    fallbackCaption source_url ≠ "" := by
  intro hcon
  have hlen := congrArg String.length hcon
  rw [fallbackCaption, String.length_append] at hlen
  rw [show ("Fresh repost, source: ").length = 22 from rfl] at hlen
  rw [show ("" : String).length = 0 from rfl] at hlen
  omega

/-- Helper: truncation keeps a non-empty string non-empty. -/
theorem truncate150_ne_empty (c : String) (h : c ≠ "") : truncate150 c ≠ "" := by
  intro hcon
  apply h
  have hdata : c.data.take 150 = [] := congrArg String.data hcon
  have hnil : c.data = [] := by
    rcases List.take_eq_nil_iff.mp hdata with h1 | h1
    · exact absurd h1 (by omega)
    · exact h1
  exact String.ext hnil

/-- Helper: normalized tag lists have between four and eight entries. -/
theorem normalizeTags_length (tags : List String) :
    4 ≤ (normalizeTags tags).length ∧ (normalizeTags tags).length ≤ 8 := by
  unfold normalizeTags
  by_cases h : ((tags.filter (fun s => isNormalizedTag s)).take 8).length < 4
  · rw [if_pos h]
    simp only [List.length_take, List.length_append] at h ⊢
    rw [show fallbackHashtags.length = 5 from rfl]
    omega
  · rw [if_neg h]
    simp only [List.length_take] at h ⊢
    omega

/-- Helper: every entry of a normalized tag list passes the normalization
check. -/
theorem normalizeTags_normalized (tags : List String) :
    ∀ tag ∈ normalizeTags tags, isNormalizedTag tag = true := by
  intro tag htag
  unfold normalizeTags at htag
  have hfall : ∀ tg ∈ fallbackHashtags, isNormalizedTag tg = true := by
    intro tg htg
    simp [fallbackHashtags] at htg
    rcases htg with h | h | h | h | h <;> rw [h] <;> rfl
  by_cases h : ((tags.filter (fun s => isNormalizedTag s)).take 8).length < 4
  · rw [if_pos h] at htag
    have := List.mem_of_mem_take htag
    rcases List.mem_append.mp this with hh | hh
    · exact List.of_mem_filter (List.mem_of_mem_take hh)
    · exact hfall tag hh
  · rw [if_neg h] at htag
    exact List.of_mem_filter (List.mem_of_mem_take htag)

/-- Helper: every fallback hashtag passes the normalization check. -/
theorem fallbackHashtags_normalized : ∀ tg ∈ fallbackHashtags, isNormalizedTag tg = true := by
  decide

/-- Helper: a provider that always fails makes every bounded retry loop
return nothing. -/
theorem callProvider_none (provider : Nat → Option (String × List String))
    (h : ∀ x, provider x = none) (r a : Nat) : callProvider provider a r = none := by
  induction r generalizing a with
  | zero => rfl
  | succ r ih =>
    unfold callProvider
    rw [h a]
    exact ih (a + 1)

/-- C5: the caption step is a total function that never raises: for every
configuration, provider behavior and input it returns a non-empty caption
together with between four and eight hashtags, all normalized; with
missing configuration, and likewise when the provider fails on every
attempt, the result is exactly the deterministic fallback derived from the
source URL. -/
theorem caption_never_raises (apiKey : Option String)
    (provider : Nat → Option (String × List String)) (source_url : String) :
    (generate_caption apiKey provider source_url).1 ≠ "" ∧
    4 ≤ (generate_caption apiKey provider source_url).2.length ∧
    (generate_caption apiKey provider source_url).2.length ≤ 8 ∧
    (∀ tag ∈ (generate_caption apiKey provider source_url).2, isNormalizedTag tag = true) ∧
    (apiKey = none → generate_caption apiKey provider source_url =
      (fallbackCaption source_url, fallbackHashtags)) ∧
    ((∀ x, provider x = none) → generate_caption apiKey provider source_url =
      (fallbackCaption source_url, fallbackHashtags)) := by
  cases apiKey with
  | none =>
    have hgen : generate_caption none provider source_url =
        (fallbackCaption source_url, fallbackHashtags) := rfl
    refine ⟨?_, ?_, ?_, ?_, fun _ => hgen, fun _ => hgen⟩
    · rw [hgen]; exact fallbackCaption_ne_empty source_url
    · rw [hgen]; exact (by decide : 4 ≤ fallbackHashtags.length)
    · rw [hgen]; exact (by decide : fallbackHashtags.length ≤ 8)
    · rw [hgen]; exact fallbackHashtags_normalized
  | some key =>
    cases hcp : callProvider provider 1 3 with
    | none =>
      have hgen : generate_caption (some key) provider source_url =
          (fallbackCaption source_url, fallbackHashtags) := by
        unfold generate_caption
        rw [hcp]
      refine ⟨?_, ?_, ?_, ?_, ?_, fun _ => hgen⟩
      · rw [hgen]; exact fallbackCaption_ne_empty source_url
      · rw [hgen]; exact (by decide : 4 ≤ fallbackHashtags.length)
      · rw [hgen]; exact (by decide : fallbackHashtags.length ≤ 8)
      · rw [hgen]; exact fallbackHashtags_normalized
      · intro hcon
        exact Option.noConfusion hcon
    | some res =>
      rcases res with ⟨c, tags⟩
      have hgen : generate_caption (some key) provider source_url =
          (if c = "" then fallbackCaption source_url else truncate150 c,
            normalizeTags tags) := by
        unfold generate_caption
        rw [hcp]
      refine ⟨?_, ?_, ?_, ?_, ?_, ?_⟩
      · rw [hgen]
        by_cases hc : c = ""
        · rw [if_pos hc]
          exact fallbackCaption_ne_empty source_url
        · rw [if_neg hc]
          exact truncate150_ne_empty c hc
      · rw [hgen]; exact (normalizeTags_length tags).1
      · rw [hgen]; exact (normalizeTags_length tags).2
      · rw [hgen]; exact normalizeTags_normalized tags
      · intro hcon
        exact Option.noConfusion hcon
      · intro hall
        rw [callProvider_none provider hall 3 1] at hcp
        exact Option.noConfusion hcp

/-- Witness for C5: the unconfigured service on the sample URL returns
exactly the deterministic fallback result. -/
theorem caption_never_raises_witness :
    generate_caption none (fun _ => none) "https://www.instagram.com/reel/ABC123/" =
      (fallbackCaption "https://www.instagram.com/reel/ABC123/", fallbackHashtags) :=
  (caption_never_raises none (fun _ => none)
    "https://www.instagram.com/reel/ABC123/").2.2.2.2.1 rfl

/-! Credential manager. -/

/-- Modelled from the spec: the destination-platform OAuth credential,
section 3. -/
structure Credential where
  access_token : String
  refresh_token : String
  scope : String
  expires_at : Nat
  open_id : String
  deriving DecidableEq, Repr

/-- Modelled from the spec: the credential manager's failures, section 4.2. -/
inductive CredError
  | NoCredential
  | RefreshFailed
  deriving DecidableEq, Repr

/-- Modelled from the spec: the safety margin in seconds before expiry that
triggers a proactive refresh, section 4.2 (five minutes). -/
def safetyMargin : Nat := 300

/-- The outcome of one get_valid_credential call: the credential handed to
the caller, the stored state after the call, and whether a refresh
exchange was performed. -/
structure CredResult where
  cred : Credential
  stored : Option Credential
  refreshed : Bool
  deriving DecidableEq, Repr

/-- Modelled from the spec: get_valid_credential, section 4.2: with no
stored credential it fails NoCredential; a credential whose expires_at is
more than the safety margin in the future is returned unchanged without a
refresh; otherwise a refresh exchange runs, its result is persisted and
returned, and a failed exchange surfaces RefreshFailed. -/
def get_valid_credential (now : Nat) (stored : Option Credential)
    (exchange : Credential → Option Credential) : Except CredError CredResult :=
  match stored with
  | none => .error .NoCredential
  | some c =>
    if now + safetyMargin < c.expires_at then .ok ⟨c, some c, false⟩
    else
      match exchange c with
      | some c2 => .ok ⟨c2, some c2, true⟩
      | none => .error .RefreshFailed

/-- C7: get_valid_credential returns the stored credential unchanged and
unrefreshed exactly on the fresh path, expires_at more than the safety
margin after now; on the stale path with a working exchange it persists
and returns the refreshed credential; it fails NoCredential if and only
if no credential was ever stored, and RefreshFailed if and only if a
stale credential's exchange failed. -/
theorem get_valid_credential_spec (now : Nat) (stored : Option Credential)
    (exchange : Credential → Option Credential) :
    (∀ c, stored = some c → now + safetyMargin < c.expires_at →
      get_valid_credential now stored exchange = .ok ⟨c, stored, false⟩) ∧
    (∀ c c2, stored = some c → ¬ now + safetyMargin < c.expires_at →
      exchange c = some c2 →
      get_valid_credential now stored exchange = .ok ⟨c2, some c2, true⟩) ∧
    (get_valid_credential now stored exchange = .error .NoCredential ↔ stored = none) ∧
    (get_valid_credential now stored exchange = .error .RefreshFailed ↔
      ∃ c, stored = some c ∧ ¬ now + safetyMargin < c.expires_at ∧ exchange c = none) := by
  cases stored with
  | none =>
    refine ⟨?_, ?_, ?_, ?_⟩
    · intro c hc
      exact absurd hc (by simp)
    · intro c c2 hc
      exact absurd hc (by simp)
    · simp [get_valid_credential]
    · simp [get_valid_credential]
  | some c =>
    by_cases hfresh : now + safetyMargin < c.expires_at
    · refine ⟨?_, ?_, ?_, ?_⟩
      · intro c0 hc0 h2
        cases Option.some.inj hc0
        simp [get_valid_credential, hfresh]
      · intro c0 c2 hc0 hnf hexb
        cases Option.some.inj hc0
        exact absurd hfresh hnf
      · simp [get_valid_credential, hfresh]
      · simp [get_valid_credential, hfresh]
    · cases hex : exchange c with
      | some c2 =>
        refine ⟨?_, ?_, ?_, ?_⟩
        · intro c0 hc0 h2
          cases Option.some.inj hc0
          exact absurd h2 hfresh
        · intro c0 c2b hc0 hnf hexb
          cases Option.some.inj hc0
          rw [hex] at hexb
          cases Option.some.inj hexb
          simp [get_valid_credential, hfresh, hex]
        · simp [get_valid_credential, hfresh, hex]
        · simp [get_valid_credential, hfresh, hex]
      | none =>
        refine ⟨?_, ?_, ?_, ?_⟩
        · intro c0 hc0 h2
          cases Option.some.inj hc0
          exact absurd h2 hfresh
        · intro c0 c2b hc0 hnf hexb
          cases Option.some.inj hc0
          rw [hex] at hexb
          exact Option.noConfusion hexb
        · simp [get_valid_credential, hfresh, hex]
        · simp [get_valid_credential, hfresh, hex]
          omega

/-- Modelled from the spec: a stored credential already past the refresh
threshold. -/
def sampleCred : Credential :=
  { access_token := "tok", refresh_token := "ref", scope := "user.info.basic",
    expires_at := 100, open_id := "open123" }

/-- Modelled from the spec: the credential a refresh exchange returns, with
a fresh expiry. -/
def sampleCred2 : Credential :=
  { access_token := "tok2", refresh_token := "ref2", scope := "user.info.basic",
    expires_at := 5000, open_id := "open123" }

/-- Witness for C7: the stale stored credential with a working exchange
yields the persisted refreshed credential. -/
theorem get_valid_credential_spec_witness :
    get_valid_credential 1000 (some sampleCred) (fun _ => some sampleCred2) =
      .ok ⟨sampleCred2, some sampleCred2, true⟩ :=
  (get_valid_credential_spec 1000 (some sampleCred) (fun _ => some sampleCred2)).2.1
    sampleCred sampleCred2 rfl (by decide) rfl

/-- Modelled from the spec: N concurrent get_valid_credential calls
serialized by the per-account single-writer lock, section 4.2: each caller
runs against the state the previous caller left; the first component
collects every caller's outcome, credential and refreshed flag, and the
second collects every stored state observed, the initial one first. -/
def serializeCalls (now : Nat) (exchange : Credential → Option Credential) :
    Nat → Option Credential →
      List (Except CredError (Credential × Bool)) × List (Option Credential)
  | 0, st => ([], [st])
  | n + 1, st =>
    match get_valid_credential now st exchange with
    | .ok r =>
      let rest := serializeCalls now exchange n r.stored
      (.ok (r.cred, r.refreshed) :: rest.1, st :: rest.2)
    | .error e =>
      let rest := serializeCalls now exchange n st
      (.error e :: rest.1, st :: rest.2)

/-- Whether a serialized caller's outcome involved a refresh exchange. -/
def isRefreshOutcome : Except CredError (Credential × Bool) → Bool
  | .ok (_, refreshed) => refreshed
  | .error _ => false

/-- Helper: once the stored credential is fresh, every further serialized
caller returns it without refreshing and the state never changes. -/
theorem serializeCalls_fresh (now : Nat) (exchange : Credential → Option Credential)
    (c2 : Credential) (hfresh : now + safetyMargin < c2.expires_at) (n : Nat) :
    serializeCalls now exchange n (some c2) =
      (List.replicate n (.ok (c2, false)), List.replicate (n + 1) (some c2)) := by
  induction n with
  | zero => rfl
  | succ n ih =>
    have hcall : get_valid_credential now (some c2) exchange = .ok ⟨c2, some c2, false⟩ := by
      simp [get_valid_credential, hfresh]
    simp [serializeCalls, hcall, ih, List.replicate_succ]

/-- C8: N serialized get_valid_credential calls on an expired stored
credential perform exactly one refresh exchange, every caller receives the
same refreshed credential, and every state any caller can observe is a
whole credential, the original or the refreshed one, never a partial
write. -/
theorem concurrent_refresh_once (now : Nat) (c c2 : Credential)
    (exchange : Credential → Option Credential) (n : Nat)
    (hstale : ¬ now + safetyMargin < c.expires_at)
    (hex : exchange c = some c2)
    (hfresh : now + safetyMargin < c2.expires_at)
    (hn : 1 ≤ n) :
    (serializeCalls now exchange n (some c)).1 =
      .ok (c2, true) :: List.replicate (n - 1) (.ok (c2, false)) ∧
    (serializeCalls now exchange n (some c)).2 =
      some c :: List.replicate n (some c2) ∧
    (serializeCalls now exchange n (some c)).1.countP isRefreshOutcome = 1 ∧
    ∀ st ∈ (serializeCalls now exchange n (some c)).2, st = some c ∨ st = some c2 := by
  obtain ⟨m, rfl⟩ : ∃ m, n = m + 1 := ⟨n - 1, by omega⟩
  have hcall : get_valid_credential now (some c) exchange = .ok ⟨c2, some c2, true⟩ := by
    simp [get_valid_credential, hstale, hex]
  have hser : serializeCalls now exchange (m + 1) (some c) =
      (.ok (c2, true) :: List.replicate m (.ok (c2, false)),
        some c :: List.replicate (m + 1) (some c2)) := by
    have hrest := serializeCalls_fresh now exchange c2 hfresh m
    simp [serializeCalls, hcall, hrest]
  have hcount : ∀ k, (List.replicate k
      (Except.ok (c2, false) : Except CredError (Credential × Bool))).countP
      isRefreshOutcome = 0 := by
    intro k
    induction k with
    | zero => rfl
    | succ k ih => simp [List.replicate_succ, List.countP_cons, ih, isRefreshOutcome]
  refine ⟨?_, ?_, ?_, ?_⟩
  · rw [hser]
    simp
  · rw [hser]
  · rw [hser]
    rw [List.countP_cons]
    simp [hcount m, isRefreshOutcome]
  · intro st hst
    rw [hser] at hst
    rcases List.mem_cons.mp hst with hh | hh
    · exact Or.inl hh
    · exact Or.inr (List.eq_of_mem_replicate hh)

/-- Witness for C8: three serialized callers on the expired sample
credential perform exactly one refresh. -/
theorem concurrent_refresh_once_witness :
    (serializeCalls 1000 (fun _ => some sampleCred2) 3 (some sampleCred)).1.countP
      isRefreshOutcome = 1 :=
  (concurrent_refresh_once 1000 sampleCred sampleCred2 (fun _ => some sampleCred2) 3
    (by decide) rfl (by decide) (by decide)).2.2.1

end CrossPlatform
